import Mathlib

/-!
Formal model of `src/app.py` (kooslab/OCR-PDF): a Streamlit application that
rasterizes uploaded PDF files, sends each page image to a vision model for OCR,
and aggregates the per-page texts into a report.

Modelling conventions:
* Python strings are lists of characters (`Str`).
* A Python function that may raise is modelled with `Except`; the external
  libraries (`fitz`, the model API) are oracles whose outcomes are inputs.
* Streamlit display calls (`st.image`, `st.text_area`, ...) carry no data flow
  and are omitted; `st.error` messages are collected, since the spec says parse
  failures are reported.
-/

/-- Python strings are modelled as lists of characters. -/
abbrev Str := List Char

/-- A PDF page as exposed by `fitz`: native pixel dimensions plus abstract
content. -/
structure Page where
  width : Nat
  height : Nat
  content : Str
deriving DecidableEq

/-- A rendered raster image (result of `page.get_pixmap`). -/
structure Img where
  width : Nat
  height : Nat
  content : Str
deriving DecidableEq

/-- Model of `page.get_pixmap(matrix=fitz.Matrix(s, s))` (src/app.py lines
64-65): rendering at linear scale factor `s` multiplies both native page
dimensions by `s`. -/
def get_pixmap (s : Nat) (page : Page) : Img :=
  { width := s * page.width, height := s * page.height, content := page.content }

/-- Model of `pdf_to_images` (src/app.py lines 52-76).  The input is the
outcome of `fitz.open(stream=pdf_bytes, filetype="pdf")` on the file bytes:
`Except.error e` models a raised exception with message `e`.  The first
component is the Python return value (`none` models `None`, returned from the
`except` branch); the second lists the `st.error` messages displayed. -/
def pdf_to_images (pdf_file : Except Str (List Page)) : Option (List Img) × List Str :=
  match pdf_file with
  | .ok pdf_document =>
      (some (pdf_document.map (fun page => get_pixmap 2 page)), [])
  | .error e =>
      (none, ["Error converting PDF to images: ".toList ++ e])

/-- Model of `encode_image` (src/app.py lines 78-82): the base64 PNG payload of
an image, modelled abstractly by the image content (no claim depends on the
encoding itself, only on which image is sent). -/
def encode_image (image : Img) : Str := image.content

/-- The structured-mode prompt (src/app.py lines 92-108), with `{filename}` and
`{structured_format}` interpolated. -/
def structuredPrompt (filename structured_format : Str) : Str :=
  "Please perform OCR on this image from file: ".toList ++ filename ++
  "\n\nIMPORTANT: This appears to be a form or questionnaire with rating scales. Please extract the content in a consistent, structured format.\n\nExpected format:\n".toList
  ++ structured_format ++
  "\n\nGuidelines:\n1. For rating scale questions (1-5), look for CIRCLED numbers (not X marks). Extract as: \"Question text [Selected: X]\" where X is the circled number\n2. For multiple choice, show: \"Question [Selected: Option]\" \n3. For text fields, show: \"Field name: [Content]\"\n4. Preserve the exact question numbers and order\n5. If a question has sub-items (a, b, c), preserve that structure\n6. If no option is circled/selected, indicate as [Selected: None]\n7. IMPORTANT: Look for circles (○) around numbers, not checkmarks or X marks\n\nReturn the extracted content in a consistent, structured format that can be easily parsed.".toList

/-- The free-form prompt (src/app.py lines 110-119), with `{filename}`
interpolated. -/
def freeformPrompt (filename : Str) : Str :=
  "Please perform OCR on this image and extract all text content. \n    This is from file: ".toList
  ++ filename ++
  "\n    \n    Format the output as structured data if you identify:\n    - Tables: preserve the table structure\n    - Forms: extract field names and values\n    - Lists: maintain list formatting\n    - Rating scales: show as \"Question [Selected: X]\"\n    \n    Return the extracted text in a clear, organized format.".toList

/-- Prompt selection (src/app.py line 91, `if structured_format:`): Python
truthiness, so `None` and the empty string both select the free-form prompt. -/
def buildPrompt (filename : Str) (structured_format : Option Str) : Str :=
  match structured_format with
  | some f => if f = [] then freeformPrompt filename else structuredPrompt filename f
  | none => freeformPrompt filename

/-- The external model capability: given the API key, the prompt text and the
encoded image, either return the response text or raise (`Except.error`).  Any
transport, authentication or model-side failure of
`client.messages.create(...)` is an `Except.error` outcome of this oracle. -/
abbrev Oracle := Str → Str → Str → Except Str Str

/-- Model of `extract_text_with_claude` (src/app.py lines 84-147): build the
prompt, call the model, and return either `response.content[0].text` or — from
the `except` branch — `"Error processing image: " + str(e)`. -/
def extract_text_with_claude (api : Oracle) (image : Img) (api_key : Str)
    (filename : Str) (structured_format : Option Str) : Str :=
  let base64_image := encode_image image
  let prompt := buildPrompt filename structured_format
  match api api_key prompt base64_image with
  | .ok response => response
  | .error e => "Error processing image: ".toList ++ e

/-- The preview projection (src/app.py line 241):
`pdf_text[:500] + "..." if len(pdf_text) > 500 else pdf_text`. -/
def preview (s : Str) : Str :=
  if s.length > 500 then s.take 500 ++ "...".toList else s

/-- The per-page label `f"{pdf_file.name} - Page {page_num}"` (src/app.py line
227) passed to `extract_text_with_claude` as `filename`. -/
def pageLabel (name : Str) (page_num : Nat) : Str :=
  name ++ " - Page ".toList ++ (Nat.repr page_num).toList

/-- The per-document concatenated text built by the page loop (src/app.py lines
213-236): starting from `""`, for each page (1-based, in order) append
`f"\n\n--- Page {page_num} ---\n{extracted_text}"`. -/
def pdf_text (api : Oracle) (api_key : Str) (format_template : Option Str)
    (name : Str) (images : List Img) : Str :=
  images.enum.foldl (fun acc p =>
    acc ++ "\n\n--- Page ".toList ++ (Nat.repr (p.1 + 1)).toList ++ " ---\n".toList
      ++ extract_text_with_claude api p.2 api_key (pageLabel name (p.1 + 1)) format_template)
    []

/-- One row of `results` (src/app.py lines 238-242); `ExtractedText` models the
`"Extracted Text"` column, which stores the truncated preview. -/
structure ResultEntry where
  Filename : Str
  Pages : Nat
  ExtractedText : Str
deriving DecidableEq

/-- An uploaded file: its name and the `fitz` parse outcome of its bytes. -/
structure UploadedFile where
  name : Str
  pdf : Except Str (List Page)

/-- Observable outcome of the processing loop of `main` (src/app.py lines
194-242): whether the batch was rejected by the input cap, the `results` rows,
the `st.error` messages displayed, and the labels of the pages actually sent to
the extraction client (in call order). -/
structure BatchOutput where
  rejected : Bool
  results : List ResultEntry
  errors : List Str
  calls : List Str
deriving DecidableEq

/-- The body of the `for idx, pdf_file in enumerate(uploaded_files)` loop
(src/app.py lines 204-242) for one file: rasterize; on parse failure the error
is displayed and `images` is `None` (falsy), on zero pages `images` is `[]`
(falsy) — in both cases no result row is appended; otherwise run OCR on every
page and append the row. -/
def processFile (api : Oracle) (api_key : Str) (format_template : Option Str)
    (acc : BatchOutput) (pdf_file : UploadedFile) : BatchOutput :=
  let conv := pdf_to_images pdf_file.pdf
  let acc1 := { acc with errors := acc.errors ++ conv.2 }
  match conv.1 with
  | none => acc1
  | some images =>
    if images = [] then acc1
    else
      { acc1 with
        results := acc1.results ++
          [{ Filename := pdf_file.name, Pages := images.length,
             ExtractedText :=
               preview (pdf_text api api_key format_template pdf_file.name images) }],
        calls := acc1.calls ++ images.enum.map (fun p => pageLabel pdf_file.name (p.1 + 1)) }

/-- The processing part of `main` (src/app.py lines 194-242): the input cap
`if uploaded_files and len(uploaded_files) > 5` rejects the batch before the
loop starts (`return`); otherwise every file is processed in upload order. -/
def runBatch (api : Oracle) (api_key : Str) (format_template : Option Str)
    (uploaded_files : List UploadedFile) : BatchOutput :=
  if uploaded_files.length > 5 then
    { rejected := true, results := [], errors := [], calls := [] }
  else
    uploaded_files.foldl (processFile api api_key format_template)
      { rejected := false, results := [], errors := [], calls := [] }

/-- Fuel-driven helper for `replaceAll`; the fuel is an upper bound on the
length of the remaining string, so it never runs out when seeded with the
string length. -/
def replaceAllF (pat rep : Str) : Nat → Str → Str
  | _, [] => []
  | 0, s => s
  | fuel + 1, c :: rest =>
    if pat ≠ [] ∧ pat.isPrefixOf (c :: rest) then
      rep ++ replaceAllF pat rep fuel (rest.drop (pat.length - 1))
    else
      c :: replaceAllF pat rep fuel rest

/-- Model of Python `s.replace(pat, rep)`: replace every non-overlapping
occurrence of `pat`, scanning left to right. -/
def replaceAll (pat rep s : Str) : Str := replaceAllF pat rep s.length s

/-- The full-text view (src/app.py lines 260-264): for each result row, look up
`next((r["Extracted Text"] for r in results if r["Filename"] == result["Filename"]), "")`
— the first entry with the same filename — and display it with every
occurrence of `"..."` removed (`full_text.replace("...", "")`). -/
def full_texts_view (results : List ResultEntry) : List Str :=
  results.map (fun result =>
    let full_text :=
      ((results.find? (fun r => r.Filename == result.Filename)).map
        (fun r => r.ExtractedText)).getD []
    replaceAll "...".toList [] full_text)

/-! ### Derived definitions used by the verification -/

/-- The texts extracted for the pages of one document, in page order: what the
loop of src/app.py lines 216-229 obtains for each page. -/
def pageTexts (api : Oracle) (api_key : Str) (format_template : Option Str)
    (name : Str) (images : List Img) : List Str :=
  images.enum.map (fun p =>
    extract_text_with_claude api p.2 api_key (pageLabel name (p.1 + 1)) format_template)

/-- Closed form of the concatenation of the page loop: the page-boundary marker
`"\n\n--- Page k ---\n"` immediately before each page text, page numbers
ascending from `k`. -/
def renderFrom (k : Nat) : List Str → Str
  | [] => []
  | t :: ts =>
    "\n\n--- Page ".toList ++ (Nat.repr k).toList ++ " ---\n".toList ++ t ++ renderFrom (k + 1) ts

/-- Number of occurrences of `pat` in `s`: the number of positions of `s` at
which `pat` occurs as a prefix of the corresponding suffix. -/
def countOccs (pat : Str) : Str → Nat
  | [] => if pat.isPrefixOf [] then 1 else 0
  | c :: rest => (if pat.isPrefixOf (c :: rest) then 1 else 0) + countOccs pat rest

/-- The head common to every page-boundary marker. -/
def patPage : Str := "--- Page ".toList

/-- The result row that the loop body produces for one uploaded file, if any:
`none` when the PDF fails to parse (row skipped after the error is shown) or
when it has zero pages (empty image list is falsy). -/
def mkEntry (api : Oracle) (api_key : Str) (format_template : Option Str)
    (f : UploadedFile) : Option ResultEntry :=
  match (pdf_to_images f.pdf).1 with
  | none => none
  | some images =>
    if images = [] then none
    else some { Filename := f.name, Pages := images.length,
                ExtractedText := preview (pdf_text api api_key format_template f.name images) }

/-- The error messages displayed while processing one uploaded file. -/
def fileErrors (f : UploadedFile) : List Str := (pdf_to_images f.pdf).2

/-- The labels of the extraction calls made for one uploaded file. -/
def fileCalls (f : UploadedFile) : List Str :=
  match (pdf_to_images f.pdf).1 with
  | none => []
  | some images =>
    if images = [] then []
    else images.enum.map (fun p => pageLabel f.name (p.1 + 1))

/-- Default values used with `List.getD` in theorem statements. -/
def defPage : Page := { width := 0, height := 0, content := [] }

/-- Default image for `List.getD`. -/
def defImg : Img := { width := 0, height := 0, content := [] }

/-- Default uploaded file for `List.getD`. -/
def defFile : UploadedFile := { name := [], pdf := .ok [] }

/-- Default result row for `List.getD`. -/
def defEntry : ResultEntry := { Filename := [], Pages := 0, ExtractedText := [] }

/-! ### Basic structure of the processing loop -/

theorem processFile_eq (api : Oracle) (api_key : Str) (fmt : Option Str)
    (acc : BatchOutput) (f : UploadedFile) :
    processFile api api_key fmt acc f =
      ⟨acc.rejected, acc.results ++ (mkEntry api api_key fmt f).toList,
       acc.errors ++ fileErrors f, acc.calls ++ fileCalls f⟩ := by
  obtain ⟨nm, pd⟩ := f
  rcases pd with e | pages
  · simp [processFile, mkEntry, fileErrors, fileCalls, pdf_to_images]
  · rcases pages with _ | ⟨pg, pgs⟩
    · simp [processFile, mkEntry, fileErrors, fileCalls, pdf_to_images]
    · simp [processFile, mkEntry, fileErrors, fileCalls, pdf_to_images]

theorem foldl_processFile (api : Oracle) (api_key : Str) (fmt : Option Str) :
    ∀ (files : List UploadedFile) (r : Bool) (rs : List ResultEntry) (es cs : List Str),
      files.foldl (processFile api api_key fmt) ⟨r, rs, es, cs⟩ =
        ⟨r, rs ++ files.filterMap (mkEntry api api_key fmt),
           es ++ (files.map fileErrors).flatten,
           cs ++ (files.map fileCalls).flatten⟩ := by
  intro files
  induction files with
  | nil => intro r rs es cs; simp
  | cons f fs ih =>
    intro r rs es cs
    rw [List.foldl_cons, processFile_eq, ih]
    rcases h : mkEntry api api_key fmt f with _ | entry <;>
      simp [List.filterMap_cons, h, List.append_assoc]

/-- Closed form of `runBatch` below the input cap. -/
theorem runBatch_eq (api : Oracle) (api_key : Str) (fmt : Option Str)
    (files : List UploadedFile) (hlen : files.length ≤ 5) :
    runBatch api api_key fmt files =
      ⟨false, files.filterMap (mkEntry api api_key fmt),
        (files.map fileErrors).flatten, (files.map fileCalls).flatten⟩ := by
  rw [runBatch, if_neg (by omega)]
  rw [foldl_processFile]
  simp

/-! ### Claim C3 -/

/-- C3: For every page image, prompt, and credential, the Extraction Client
call never raises to the caller — `extract_text_with_claude` is a total
function into `Str` even though the model call may fail — and on any failing
outcome (transport, authentication, or model-side, all modelled as an
`Except.error` outcome of the oracle) it returns a text prefixed with the
distinct error description `"Error processing image: <detail>"`. -/
theorem extract_soft_fails_spec_c3 (api : Oracle) (image : Img)
    (api_key filename : Str) (structured_format : Option Str) (e : Str)
    (herr : api api_key (buildPrompt filename structured_format) (encode_image image) =
      Except.error e) :
    extract_text_with_claude api image api_key filename structured_format =
      "Error processing image: ".toList ++ e ∧
    "Error processing image: ".toList <+:
      extract_text_with_claude api image api_key filename structured_format := by
  have h1 : extract_text_with_claude api image api_key filename structured_format =
      "Error processing image: ".toList ++ e := by
    simp only [extract_text_with_claude, herr]
  exact ⟨h1, h1 ▸ List.prefix_append _ _⟩

/-- Witness for C3: a concrete authentication failure is returned, not raised. -/
theorem extract_soft_fails_spec_c3_witness :
    extract_text_with_claude (fun _ _ _ => Except.error "401 authentication_error".toList)
      { width := 1, height := 1, content := "img".toList } "key".toList
      "doc.pdf - Page 1".toList none =
      "Error processing image: 401 authentication_error".toList := by
  have h := extract_soft_fails_spec_c3
    (fun _ _ _ => Except.error "401 authentication_error".toList)
    { width := 1, height := 1, content := "img".toList } "key".toList
    "doc.pdf - Page 1".toList none "401 authentication_error".toList rfl
  exact h.1.trans (by decide)

/-! ### Claim C4 -/

/-- C4: For any per-document full text of length `L`, the preview equals the
full text when `L ≤ 500` and otherwise equals the first 500 characters followed
by the ellipsis marker; the projection is idempotent. -/
theorem preview_spec_c4 (s : Str) :
    ((s.length ≤ 500 ∧ preview s = s) ∨
      (500 < s.length ∧ preview s = s.take 500 ++ "...".toList)) ∧
    preview (preview s) = preview s := by
  by_cases h : 500 < s.length
  · have h1 : preview s = s.take 500 ++ "...".toList := by simp [preview, h]
    have h2 : (s.take 500).length = 500 := by
      simp only [List.length_take]
      omega
    refine ⟨Or.inr ⟨h, h1⟩, ?_⟩
    rw [h1, preview, if_pos (by simp [h2])]
    rw [List.take_append_eq_append_take, h2, List.take_take]
    simp
  · have h1 : preview s = s := by simp [preview, h]
    exact ⟨Or.inl ⟨by omega, h1⟩, by rw [h1]; exact h1⟩

/-! ### Claim C7 -/

/-- C7: For every valid PDF with `P` pages the Rasterizer produces exactly `P`
in-memory images, one per page in native order, each with both dimensions
doubled (fixed 2x linear scale); a 0-page PDF produces the empty sequence and
no error message. -/
theorem pdf_to_images_spec_c7 (pages : List Page) :
    (pdf_to_images (Except.ok pages)).1 = some (pages.map (get_pixmap 2)) ∧
    (pdf_to_images (Except.ok pages)).2 = [] ∧
    (pages.map (get_pixmap 2)).length = pages.length ∧
    (∀ i, i < pages.length →
      (pages.map (get_pixmap 2)).getD i defImg =
        { width := 2 * (pages.getD i defPage).width,
          height := 2 * (pages.getD i defPage).height,
          content := (pages.getD i defPage).content }) ∧
    (pages = [] → (pdf_to_images (Except.ok pages)).1 = some [] ∧
      (pdf_to_images (Except.ok pages)).2 = []) := by
  refine ⟨rfl, rfl, by simp, ?_, ?_⟩
  · intro i hi
    have hi2 : i < (pages.map (get_pixmap 2)).length := by simp [hi]
    rw [List.getD_eq_getElem _ _ hi2, List.getD_eq_getElem _ _ hi, List.getElem_map]
    rfl
  · intro h
    subst h
    exact ⟨rfl, rfl⟩

/-- Witness for C7 at a one-page PDF and at a zero-page PDF. -/
theorem pdf_to_images_spec_c7_witness :
    (pdf_to_images (Except.ok [{ width := 5, height := 7, content := "p1".toList }])).1 =
      some [{ width := 10, height := 14, content := "p1".toList }] ∧
    ([({ width := 5, height := 7, content := "p1".toList } : Page)].map (get_pixmap 2)).getD 0
        defImg = { width := 10, height := 14, content := "p1".toList } ∧
    (pdf_to_images (Except.ok ([] : List Page))).1 = some [] := by
  refine ⟨?_, ?_, ?_⟩
  · exact ((pdf_to_images_spec_c7 _).1).trans (by decide)
  · have h := (pdf_to_images_spec_c7
      [{ width := 5, height := 7, content := "p1".toList }]).2.2.2.1 0 (by decide)
    exact h.trans (by decide)
  · exact ((pdf_to_images_spec_c7 []).2.2.2.2 rfl).1

/-! ### Concrete fixtures used by witnesses -/

/-- A model oracle that always succeeds with a short text. -/
def exApi : Oracle := fun _ _ _ => Except.ok "hello world".toList

/-- A one-page PDF page. -/
def exPage : Page := { width := 5, height := 7, content := "p".toList }

/-- A well-formed one-page uploaded file. -/
def exFileA : UploadedFile := { name := "a.pdf".toList, pdf := Except.ok [exPage] }

/-- A second well-formed one-page uploaded file. -/
def exFileB : UploadedFile := { name := "b.pdf".toList, pdf := Except.ok [exPage] }

/-- An uploaded file whose bytes fail to parse. -/
def exFileBad : UploadedFile :=
  { name := "bad.pdf".toList, pdf := Except.error "cannot open broken document".toList }

/-- An uploaded file that parses to a zero-page PDF. -/
def exFileEmpty : UploadedFile := { name := "empty.pdf".toList, pdf := Except.ok [] }

/-! ### Claim C6 -/

/-- C6: Submitting more than 5 documents is rejected before any processing
begins — no result rows, no error output, and no extraction calls — while
submitting exactly 5 documents is accepted (not rejected) and every file is
processed into the result list. -/
theorem input_cap_spec_c6 (api : Oracle) (api_key : Str) (fmt : Option Str)
    (files : List UploadedFile) :
    (files.length > 5 →
      runBatch api api_key fmt files =
        { rejected := true, results := [], errors := [], calls := [] }) ∧
    (files.length = 5 →
      (runBatch api api_key fmt files).rejected = false ∧
      (runBatch api api_key fmt files).results = files.filterMap (mkEntry api api_key fmt) ∧
      (runBatch api api_key fmt files).calls = (files.map fileCalls).flatten) := by
  constructor
  · intro h
    rw [runBatch, if_pos h]
  · intro h
    rw [runBatch_eq api api_key fmt files (by omega)]
    exact ⟨rfl, rfl, rfl⟩

/-- Witness for C6: six identical uploads are rejected with zero work; five are
accepted and processed. -/
theorem input_cap_spec_c6_witness :
    runBatch exApi "key".toList none (List.replicate 6 exFileA) =
      { rejected := true, results := [], errors := [], calls := [] } ∧
    (runBatch exApi "key".toList none (List.replicate 5 exFileA)).rejected = false := by
  exact ⟨(input_cap_spec_c6 exApi "key".toList none (List.replicate 6 exFileA)).1 (by decide),
    ((input_cap_spec_c6 exApi "key".toList none (List.replicate 5 exFileA)).2 (by decide)).1⟩

/-! ### Removing one skipped file from a batch -/

theorem runBatch_erase (api : Oracle) (api_key : Str) (fmt : Option Str)
    (files : List UploadedFile) (d : Nat) (hd : d < files.length) (hlen : files.length ≤ 5)
    (hnone : mkEntry api api_key fmt (files.getD d defFile) = none)
    (hcalls : fileCalls (files.getD d defFile) = []) :
    (runBatch api api_key fmt files).rejected = false ∧
    (runBatch api api_key fmt files).results =
      (runBatch api api_key fmt (files.eraseIdx d)).results ∧
    (runBatch api api_key fmt files).calls =
      (runBatch api api_key fmt (files.eraseIdx d)).calls ∧
    (runBatch api api_key fmt files).errors =
      ((files.take d).map fileErrors).flatten ++ fileErrors (files.getD d defFile) ++
        ((files.drop (d + 1)).map fileErrors).flatten ∧
    (runBatch api api_key fmt (files.eraseIdx d)).errors =
      ((files.take d).map fileErrors).flatten ++
        ((files.drop (d + 1)).map fileErrors).flatten := by
  have hlen2 : (files.eraseIdx d).length ≤ 5 := by
    rw [List.length_eraseIdx]
    split <;> omega
  have hsplit : files.take d ++ files.getD d defFile :: files.drop (d + 1) = files := by
    rw [List.getD_eq_getElem _ _ hd, ← List.drop_eq_getElem_cons hd, List.take_append_drop]
  rw [runBatch_eq _ _ _ _ hlen, runBatch_eq _ _ _ _ hlen2, List.eraseIdx_eq_take_drop_succ]
  refine ⟨rfl, ?_, ?_, ?_, ?_⟩
  · conv_lhs => rw [← hsplit]
    simp only [List.filterMap_append, List.filterMap_cons, hnone]
  · conv_lhs => rw [← hsplit]
    simp only [List.map_append, List.map_cons, List.flatten_append, List.flatten_cons, hcalls,
      List.nil_append]
  · conv_lhs => rw [← hsplit]
    simp only [List.map_append, List.map_cons, List.flatten_append, List.flatten_cons,
      List.append_assoc]
  · simp only [List.map_append, List.flatten_append]

/-! ### Claim C8 -/

/-- C8: When a document's PDF bytes fail to parse, the failure is reported for
that document (the conversion error message is displayed), the failing document
is excluded from the report, and the result rows and extraction calls are
exactly those of the batch with that document removed. -/
theorem parse_fail_isolated_spec_c8 (api : Oracle) (api_key : Str) (fmt : Option Str)
    (files : List UploadedFile) (d : Nat) (e : Str)
    (hlen : files.length ≤ 5) (hd : d < files.length)
    (hpdf : (files.getD d defFile).pdf = Except.error e) :
    ("Error converting PDF to images: ".toList ++ e) ∈ (runBatch api api_key fmt files).errors ∧
    (runBatch api api_key fmt files).results =
      (runBatch api api_key fmt (files.eraseIdx d)).results ∧
    (runBatch api api_key fmt files).calls =
      (runBatch api api_key fmt (files.eraseIdx d)).calls := by
  have hnone : mkEntry api api_key fmt (files.getD d defFile) = none := by
    unfold mkEntry
    rw [hpdf]
    rfl
  have hcalls : fileCalls (files.getD d defFile) = [] := by
    unfold fileCalls
    rw [hpdf]
    rfl
  obtain ⟨-, hres, hcall, herr, -⟩ := runBatch_erase api api_key fmt files d hd hlen hnone hcalls
  refine ⟨?_, hres, hcall⟩
  rw [herr]
  have : fileErrors (files.getD d defFile) =
      ["Error converting PDF to images: ".toList ++ e] := by
    unfold fileErrors
    rw [hpdf]
    rfl
  rw [this]
  simp

/-- Witness for C8: a malformed first file is reported and excluded while the
second file is processed as if alone. -/
theorem parse_fail_isolated_spec_c8_witness :
    ("Error converting PDF to images: cannot open broken document".toList ∈
      (runBatch exApi "key".toList none [exFileBad, exFileA]).errors) ∧
    (runBatch exApi "key".toList none [exFileBad, exFileA]).results =
      (runBatch exApi "key".toList none ([exFileBad, exFileA].eraseIdx 0)).results := by
  have h := parse_fail_isolated_spec_c8 exApi "key".toList none [exFileBad, exFileA] 0
    "cannot open broken document".toList (by decide) (by decide) rfl
  exact ⟨by simpa using h.1, h.2.1⟩

/-! ### Claim C9 -/

/-- C9: A valid zero-page PDF produces no report row and no error message — the
batch output is identical to that of the batch with the zero-page document
removed (it is silently skipped because the empty image list is falsy), while
all other documents are processed normally. -/
theorem zero_page_skipped_spec_c9 (api : Oracle) (api_key : Str) (fmt : Option Str)
    (files : List UploadedFile) (d : Nat)
    (hlen : files.length ≤ 5) (hd : d < files.length)
    (hpdf : (files.getD d defFile).pdf = Except.ok []) :
    (pdf_to_images (files.getD d defFile).pdf).1 = some [] ∧
    runBatch api api_key fmt files = runBatch api api_key fmt (files.eraseIdx d) := by
  have hnone : mkEntry api api_key fmt (files.getD d defFile) = none := by
    unfold mkEntry
    rw [hpdf]
    rfl
  have hcalls : fileCalls (files.getD d defFile) = [] := by
    unfold fileCalls
    rw [hpdf]
    rfl
  have herrs : fileErrors (files.getD d defFile) = [] := by
    unfold fileErrors
    rw [hpdf]
    rfl
  obtain ⟨hrej, hres, hcall, herr1, herr2⟩ := runBatch_erase api api_key fmt files d hd hlen
    hnone hcalls
  constructor
  · rw [hpdf]
    rfl
  · have hrej2 : (runBatch api api_key fmt (files.eraseIdx d)).rejected = false := by
      have hlen2 : (files.eraseIdx d).length ≤ 5 := by
        rw [List.length_eraseIdx]
        split <;> omega
      rw [runBatch_eq _ _ _ _ hlen2]
    have herr : (runBatch api api_key fmt files).errors =
        (runBatch api api_key fmt (files.eraseIdx d)).errors := by
      rw [herr1, herr2, herrs]
      simp
    cases hout1 : runBatch api api_key fmt files
    cases hout2 : runBatch api api_key fmt (files.eraseIdx d)
    simp_all

/-- Witness for C9: a zero-page second file leaves the batch output unchanged. -/
theorem zero_page_skipped_spec_c9_witness :
    (pdf_to_images exFileEmpty.pdf).1 = some [] ∧
    runBatch exApi "key".toList none [exFileA, exFileEmpty] =
      runBatch exApi "key".toList none [exFileA] := by
  have h := zero_page_skipped_spec_c9 exApi "key".toList none [exFileA, exFileEmpty] 1
    (by decide) (by decide) rfl
  exact ⟨h.1, h.2⟩

/-! ### Structure of the concatenated per-document text -/

theorem pdf_text_foldl_enumFrom (api : Oracle) (api_key : Str) (fmt : Option Str) (name : Str) :
    ∀ (images : List Img) (i : Nat) (acc : Str),
      (List.enumFrom i images).foldl (fun acc p =>
        acc ++ "\n\n--- Page ".toList ++ (Nat.repr (p.1 + 1)).toList ++ " ---\n".toList
          ++ extract_text_with_claude api p.2 api_key (pageLabel name (p.1 + 1)) fmt) acc =
      acc ++ renderFrom (i + 1)
        ((List.enumFrom i images).map (fun p =>
          extract_text_with_claude api p.2 api_key (pageLabel name (p.1 + 1)) fmt)) := by
  intro images
  induction images with
  | nil => intro i acc; simp [renderFrom]
  | cons img imgs ih =>
    intro i acc
    rw [List.enumFrom_cons]
    simp only [List.foldl_cons, List.map_cons]
    rw [ih]
    simp [renderFrom, List.append_assoc]

/-- The page loop's concatenation equals the closed form: the marker
`"\n\n--- Page n ---\n"` immediately before each page's extracted text, with
page numbers ascending from 1. -/
theorem pdf_text_eq (api : Oracle) (api_key : Str) (fmt : Option Str)
    (name : Str) (images : List Img) :
    pdf_text api api_key fmt name images =
      renderFrom 1 (pageTexts api api_key fmt name images) := by
  have h := pdf_text_foldl_enumFrom api api_key fmt name images 0 []
  simpa [pdf_text, pageTexts, List.enum] using h

/-! ### Counting marker occurrences -/

theorem countOccs_nil (pat : Str) (hne : pat ≠ []) : countOccs pat [] = 0 := by
  cases pat with
  | nil => exact absurd rfl hne
  | cons p ps => simp [countOccs]

theorem countOccs_cons (pat : Str) (c : Char) (s : Str) :
    countOccs pat (c :: s) = (if pat.isPrefixOf (c :: s) then 1 else 0) + countOccs pat s := rfl

theorem countOccs_cons_ne (p : Char) (ps : Str) (c : Char) (s : Str) (h : c ≠ p) :
    countOccs (p :: ps) (c :: s) = countOccs (p :: ps) s := by
  have hb : (p == c) = false := beq_eq_false_iff_ne.mpr (fun hh => h hh.symm)
  rw [countOccs_cons]
  simp [List.isPrefixOf, hb]

theorem isPrefixOf_split_newline :
    ∀ (pat : Str), '\n' ∉ pat → ∀ (xs ys : Str),
      pat.isPrefixOf (xs ++ '\n' :: ys) = pat.isPrefixOf (xs ++ ['\n']) := by
  intro pat
  induction pat with
  | nil => intro _ xs ys; simp
  | cons p ps ih =>
    intro hnl xs ys
    have hp : p ≠ '\n' := fun h => hnl (by simp [h])
    have hps : '\n' ∉ ps := fun h => hnl (by simp [h])
    cases xs with
    | nil =>
      have hb : (p == '\n') = false := beq_eq_false_iff_ne.mpr hp
      simp [List.isPrefixOf, hb]
    | cons x xs2 =>
      simp only [List.cons_append, List.isPrefixOf, List.append_eq]
      rw [ih hps xs2 ys]

theorem countOccs_split_newline (pat : Str) (hne : pat ≠ []) (hnl : '\n' ∉ pat) :
    ∀ (xs ys : Str),
      countOccs pat (xs ++ '\n' :: ys) = countOccs pat (xs ++ ['\n']) + countOccs pat ys := by
  intro xs
  induction xs with
  | nil =>
    intro ys
    obtain ⟨p, ps, rfl⟩ : ∃ p ps, pat = p :: ps := by
      cases pat with
      | nil => exact absurd rfl hne
      | cons a b => exact ⟨a, b, rfl⟩
    have hp : '\n' ≠ p := fun h => hnl (by simp [h.symm])
    simp only [List.nil_append]
    rw [countOccs_cons_ne p ps '\n' ys hp, countOccs_cons_ne p ps '\n' [] hp,
      countOccs_nil _ hne]
    omega
  | cons x xs2 ih =>
    intro ys
    have e1 : (x :: xs2) ++ '\n' :: ys = x :: (xs2 ++ '\n' :: ys) := rfl
    have e2 : (x :: xs2) ++ ['\n'] = x :: (xs2 ++ ['\n']) := rfl
    rw [e1, e2, countOccs_cons, countOccs_cons]
    have e3 : pat.isPrefixOf (x :: (xs2 ++ '\n' :: ys)) = pat.isPrefixOf (x :: (xs2 ++ ['\n'])) := by
      have h := isPrefixOf_split_newline pat hnl (x :: xs2) ys
      simpa using h
    rw [e3, ih ys]
    omega

theorem countOccs_le_append (pat : Str) (hne : pat ≠ []) :
    ∀ (xs ys : Str), countOccs pat xs ≤ countOccs pat (xs ++ ys) := by
  intro xs
  induction xs with
  | nil =>
    intro ys
    rw [countOccs_nil pat hne]
    omega
  | cons x xs2 ih =>
    intro ys
    rw [show (x :: xs2) ++ ys = x :: (xs2 ++ ys) from rfl, countOccs_cons, countOccs_cons]
    have hind : (if List.isPrefixOf pat (x :: xs2) then 1 else 0) ≤
        (if List.isPrefixOf pat (x :: (xs2 ++ ys)) then (1 : Nat) else 0) := by
      by_cases h : List.isPrefixOf pat (x :: xs2)
      · have h2 : List.isPrefixOf pat (x :: (xs2 ++ ys)) := by
          rw [List.isPrefixOf_iff_prefix] at h ⊢
          exact h.trans
            (by rw [show x :: (xs2 ++ ys) = (x :: xs2) ++ ys from rfl]
                exact List.prefix_append _ _)
        simp [h, h2]
      · simp [h]
    have h3 := ih ys
    omega

/-! ### Decimal page numbers contain no dash -/

theorem digitChar_ne_dash (m : Nat) : Nat.digitChar m ≠ '-' := by
  rcases Nat.lt_or_ge m 16 with hm | hm
  · interval_cases m <;> decide
  · unfold Nat.digitChar
    repeat rw [if_neg (by omega)]
    decide

theorem toDigitsCore_ne_dash :
    ∀ (fuel n : Nat) (acc : List Char), (∀ c ∈ acc, c ≠ '-') →
      ∀ c ∈ Nat.toDigitsCore 10 fuel n acc, c ≠ '-' := by
  intro fuel
  induction fuel with
  | zero =>
    intro n acc hacc c hc
    simp only [Nat.toDigitsCore] at hc
    exact hacc c hc
  | succ f ih =>
    intro n acc hacc c hc
    simp only [Nat.toDigitsCore] at hc
    by_cases h : n / 10 = 0
    · rw [if_pos h] at hc
      rcases List.mem_cons.mp hc with h1 | h2
      · exact h1 ▸ digitChar_ne_dash _
      · exact hacc c h2
    · rw [if_neg h] at hc
      refine ih (n / 10) (Nat.digitChar (n % 10) :: acc) ?_ c hc
      intro c2 hc2
      rcases List.mem_cons.mp hc2 with h1 | h2
      · exact h1 ▸ digitChar_ne_dash _
      · exact hacc c2 h2

theorem repr_ne_dash (n : Nat) : ∀ c ∈ (Nat.repr n).toList, c ≠ '-' := by
  intro c hc
  have he : (Nat.repr n).toList = Nat.toDigitsCore 10 (n + 1) n [] := rfl
  rw [he] at hc
  exact toDigitsCore_ne_dash (n + 1) n [] (by simp) c hc

/-! ### Exactly one marker occurrence per block -/

theorem countOccs_patPage_digits :
    ∀ (ds : Str), (∀ c ∈ ds, c ≠ '-') → countOccs patPage (ds ++ " ---\n".toList) = 0 := by
  intro ds
  induction ds with
  | nil =>
    intro _
    decide
  | cons d ds2 ih =>
    intro hds
    have hd : d ≠ '-' := hds d (by simp)
    have hpat : patPage = '-' :: "-- Page ".toList := rfl
    rw [show (d :: ds2) ++ " ---\n".toList = d :: (ds2 ++ " ---\n".toList) from rfl, hpat,
      countOccs_cons_ne _ _ d _ hd, ← hpat]
    exact ih (fun c hc => hds c (by simp [hc]))

theorem countOccs_patPage_block (ds : Str) (hds : ∀ c ∈ ds, c ≠ '-') :
    countOccs patPage (("\n\n--- Page ".toList ++ ds ++ " ---".toList) ++ ['\n']) = 1 := by
  have e1 : ("\n\n--- Page ".toList : Str) = '\n' :: '\n' :: patPage := by decide
  have e2 : (" ---".toList : Str) ++ ['\n'] = " ---\n".toList := by decide
  have hsh : ("\n\n--- Page ".toList ++ ds ++ " ---".toList) ++ ['\n'] =
      '\n' :: '\n' :: (patPage ++ (ds ++ " ---\n".toList)) := by
    rw [e1]
    simp only [List.cons_append, List.append_assoc, e2]
  rw [hsh]
  have hpat : patPage = '-' :: "-- Page ".toList := rfl
  rw [hpat, countOccs_cons_ne _ _ '\n' _ (by decide), countOccs_cons_ne _ _ '\n' _ (by decide),
    ← hpat]
  have hself : List.isPrefixOf patPage (patPage ++ (ds ++ " ---\n".toList)) = true :=
    List.isPrefixOf_iff_prefix.mpr (List.prefix_append _ _)
  have hexp : patPage ++ (ds ++ " ---\n".toList) =
      '-' :: '-' :: '-' :: ' ' :: 'P' :: 'a' :: 'g' :: 'e' :: ' ' :: (ds ++ " ---\n".toList) := rfl
  have f1 : ∀ Z : Str, List.isPrefixOf patPage ('-' :: '-' :: ' ' :: Z) = false := by
    intro Z
    simp [patPage, List.isPrefixOf]
  have f2 : ∀ Z : Str, List.isPrefixOf patPage ('-' :: ' ' :: Z) = false := by
    intro Z
    simp [patPage, List.isPrefixOf]
  have hrest : countOccs patPage
      ('-' :: '-' :: ' ' :: 'P' :: 'a' :: 'g' :: 'e' :: ' ' :: (ds ++ " ---\n".toList)) = 0 := by
    rw [countOccs_cons, f1]
    rw [countOccs_cons, f2]
    rw [hpat, countOccs_cons_ne _ _ ' ' _ (by decide), countOccs_cons_ne _ _ 'P' _ (by decide),
      countOccs_cons_ne _ _ 'a' _ (by decide), countOccs_cons_ne _ _ 'g' _ (by decide),
      countOccs_cons_ne _ _ 'e' _ (by decide), countOccs_cons_ne _ _ ' ' _ (by decide), ← hpat]
    rw [countOccs_patPage_digits ds hds]
    simp
  rw [hexp, countOccs_cons, ← hexp, hself, hrest]
  simp

theorem countOccs_renderFrom :
    ∀ (ts : List Str) (k : Nat),
      (∀ t ∈ ts, countOccs patPage (t ++ ['\n']) = 0) →
      countOccs patPage (renderFrom k ts) = ts.length := by
  intro ts
  induction ts with
  | nil =>
    intro k _
    simp only [renderFrom, List.length_nil]
    decide
  | cons t ts2 ih =>
    intro k h
    have hsh : renderFrom k (t :: ts2) =
        ("\n\n--- Page ".toList ++ (Nat.repr k).toList ++ " ---".toList) ++
          '\n' :: (t ++ renderFrom (k + 1) ts2) := by
      rw [renderFrom]
      rw [show (" ---\n".toList : Str) = " ---".toList ++ '\n' :: [] from by decide]
      simp [List.append_assoc]
    rw [hsh, countOccs_split_newline patPage (by decide) (by decide)]
    have hblock : countOccs patPage
        (("\n\n--- Page ".toList ++ (Nat.repr k).toList ++ " ---".toList) ++ ['\n']) = 1 :=
      countOccs_patPage_block _ (repr_ne_dash k)
    rw [hblock]
    have ht : countOccs patPage (t ++ ['\n']) = 0 := h t (by simp)
    have hpat : patPage = '-' :: "-- Page ".toList := rfl
    cases ts2 with
    | nil =>
      simp only [renderFrom, List.append_nil]
      have hmono := countOccs_le_append patPage (by decide) t ['\n']
      have h0 : countOccs patPage t = 0 := by omega
      rw [h0]
      simp
    | cons t2 ts3 =>
      have hR : ∃ R, renderFrom (k + 1) (t2 :: ts3) = '\n' :: '\n' :: R := by
        rw [renderFrom]
        exact ⟨_, rfl⟩
      obtain ⟨R, hRe⟩ := hR
      rw [hRe, show t ++ '\n' :: '\n' :: R = t ++ '\n' :: ('\n' :: R) from rfl,
        countOccs_split_newline patPage (by decide) (by decide) t ('\n' :: R), ht,
        hpat, countOccs_cons_ne _ _ '\n' _ (by decide), ← hpat]
      have hih := ih (k + 1) (fun t2 ht2 => h t2 (by simp [ht2]))
      rw [hRe, hpat, countOccs_cons_ne _ _ '\n' _ (by decide),
        countOccs_cons_ne _ _ '\n' _ (by decide), ← hpat] at hih
      rw [hih]
      simp only [List.length_cons]
      omega

/-! ### Claim C2 -/

/-- C2 (amended): For every document with P pages, the full per-document
concatenated text contains exactly P page-boundary markers of the form
`"--- Page <n> ---"` — one immediately preceding each page's text, numbered in
ascending order starting at 1 — provided no page's extracted text itself
contains the marker pattern.  The claim's count of P - 1 markers placed only
between consecutive pages is refuted separately. -/
theorem page_markers_spec_c2 (api : Oracle) (api_key : Str) (fmt : Option Str)
    (name : Str) (images : List Img)
    (h : ∀ t ∈ pageTexts api api_key fmt name images, countOccs patPage (t ++ ['\n']) = 0) :
    countOccs patPage (pdf_text api api_key fmt name images) = images.length ∧
    pdf_text api api_key fmt name images =
      renderFrom 1 (pageTexts api api_key fmt name images) := by
  have he := pdf_text_eq api api_key fmt name images
  refine ⟨?_, he⟩
  rw [he, countOccs_renderFrom _ 1 h]
  simp [pageTexts]

/-- Witness for C2 (amended) at a concrete two-page document: two markers. -/
theorem page_markers_spec_c2_witness :
    countOccs patPage (pdf_text exApi "key".toList none "a.pdf".toList
      [get_pixmap 2 exPage, get_pixmap 2 exPage]) = 2 := by
  have h := page_markers_spec_c2 exApi "key".toList none "a.pdf".toList
    [get_pixmap 2 exPage, get_pixmap 2 exPage] (by decide)
  exact h.1

/-- Counterexample to C2 as stated: a document with P = 1 page would have to
contain P - 1 = 0 boundary markers, but the concatenated text of a one-page
document contains one marker (the loop prepends a marker to every page,
including the first). -/
theorem page_markers_c2_counterexample :
    countOccs patPage (pdf_text exApi "key".toList none "a.pdf".toList
      [get_pixmap 2 exPage]) = 1 ∧ 1 ≠ ([get_pixmap 2 exPage].length - 1) := by
  decide

/-! ### Claim C5 -/

theorem renderFrom_infix :
    ∀ (ts : List Str) (k : Nat) (t : Str), t ∈ ts → List.IsInfix t (renderFrom k ts) := by
  intro ts
  induction ts with
  | nil => intro k t ht; cases ht
  | cons t2 ts2 ih =>
    intro k t ht
    rcases List.mem_cons.mp ht with h1 | h2
    · subst h1
      rw [renderFrom]
      exact ⟨"\n\n--- Page ".toList ++ (Nat.repr k).toList ++ " ---\n".toList,
        renderFrom (k + 1) ts2, by simp [List.append_assoc]⟩
    · refine (ih (k + 1) t h2).trans ?_
      rw [renderFrom]
      exact ⟨"\n\n--- Page ".toList ++ (Nat.repr k).toList ++ " ---\n".toList ++ t2, [],
        by simp [List.append_assoc]⟩

theorem pageTexts_getD (api : Oracle) (api_key : Str) (fmt : Option Str) (name : Str)
    (images : List Img) (k : Nat) (hk : k < images.length) :
    (pageTexts api api_key fmt name images).getD k [] =
      extract_text_with_claude api (images.getD k defImg) api_key
        (pageLabel name (k + 1)) fmt := by
  have hk2 : k < (pageTexts api api_key fmt name images).length := by
    simp [pageTexts, List.enum_length, hk]
  rw [List.getD_eq_getElem _ _ hk2, List.getD_eq_getElem _ _ hk]
  simp [pageTexts, List.getElem_map, List.getElem_enum]

theorem calls_mem_of_page (api : Oracle) (api_key : Str) (fmt : Option Str)
    (files : List UploadedFile) (hlen : files.length ≤ 5) (f : UploadedFile)
    (hf : f ∈ files) (pages : List Page) (hpdf : f.pdf = Except.ok pages)
    (hne : pages ≠ []) (j : Nat) (hj : j < pages.length) :
    pageLabel f.name (j + 1) ∈ (runBatch api api_key fmt files).calls := by
  rw [runBatch_eq _ _ _ _ hlen]
  refine List.mem_flatten.mpr ⟨fileCalls f, List.mem_map_of_mem _ hf, ?_⟩
  rw [fileCalls]
  simp only [hpdf, pdf_to_images]
  rw [if_neg (by simp [hne])]
  have hj2 : j < (pages.map (get_pixmap 2)).enum.length := by
    simp [List.enum_length, hj]
  have hjm : j < (pages.map (get_pixmap 2)).length := by simp [hj]
  have h1 : ((pages.map (get_pixmap 2)).enum).getD j (0, defImg) =
      (j, (pages.map (get_pixmap 2)).getD j defImg) := by
    rw [List.getD_eq_getElem _ _ hj2, List.getD_eq_getElem _ _ hjm]
    exact List.getElem_enum _ _ _
  have h2 : ((pages.map (get_pixmap 2)).enum).getD j (0, defImg) ∈
      (pages.map (get_pixmap 2)).enum := by
    rw [List.getD_eq_getElem _ _ hj2]
    exact List.getElem_mem hj2
  rw [h1] at h2
  exact List.mem_map.mpr ⟨(j, (pages.map (get_pixmap 2)).getD j defImg), h2, rfl⟩

theorem results_entry_of_file (api : Oracle) (api_key : Str) (fmt : Option Str)
    (files : List UploadedFile) (hlen : files.length ≤ 5) (f : UploadedFile)
    (hf : f ∈ files) (pages : List Page) (hpdf : f.pdf = Except.ok pages)
    (hne : pages ≠ []) :
    ∃ r ∈ (runBatch api api_key fmt files).results,
      r.Filename = f.name ∧ r.Pages = pages.length ∧
      r.ExtractedText =
        preview (pdf_text api api_key fmt f.name (pages.map (get_pixmap 2))) := by
  rw [runBatch_eq _ _ _ _ hlen]
  have hmk : mkEntry api api_key fmt f =
      some { Filename := f.name, Pages := (pages.map (get_pixmap 2)).length,
             ExtractedText :=
               preview (pdf_text api api_key fmt f.name (pages.map (get_pixmap 2))) } := by
    rw [mkEntry]
    simp only [hpdf, pdf_to_images]
    rw [if_neg (by simp [hne])]
  exact ⟨_, List.mem_filterMap.mpr ⟨f, hf, hmk⟩, rfl, by simp, rfl⟩

/-- C5: If the Extraction Client soft-fails for page k of document d, the
error-bearing text still occurs inside document d's concatenated text, every
page of d (in particular pages k+1..P) is still sent to the extraction client,
d itself still gets a report row built from the full concatenation, and every
other parseable non-empty document of the batch still appears in the report
with all of its pages processed. -/
theorem soft_fail_isolated_spec_c5 (api : Oracle) (api_key : Str) (fmt : Option Str)
    (files : List UploadedFile) (d k : Nat) (pages : List Page) (e : Str)
    (hlen : files.length ≤ 5) (hd : d < files.length)
    (hpdf : (files.getD d defFile).pdf = Except.ok pages)
    (hk : k < pages.length)
    (herr : api api_key
        (buildPrompt (pageLabel (files.getD d defFile).name (k + 1)) fmt)
        (encode_image (get_pixmap 2 (pages.getD k defPage))) = Except.error e) :
    (runBatch api api_key fmt files).rejected = false ∧
    List.IsInfix ("Error processing image: ".toList ++ e)
      (pdf_text api api_key fmt (files.getD d defFile).name (pages.map (get_pixmap 2))) ∧
    (∀ j, j < pages.length →
      pageLabel (files.getD d defFile).name (j + 1) ∈ (runBatch api api_key fmt files).calls) ∧
    (∃ r ∈ (runBatch api api_key fmt files).results,
      r.Filename = (files.getD d defFile).name ∧ r.Pages = pages.length ∧
      r.ExtractedText = preview
        (pdf_text api api_key fmt (files.getD d defFile).name (pages.map (get_pixmap 2)))) ∧
    (∀ d2 pages2, d2 < files.length → (files.getD d2 defFile).pdf = Except.ok pages2 →
      pages2 ≠ [] →
      (∃ r ∈ (runBatch api api_key fmt files).results,
        r.Filename = (files.getD d2 defFile).name ∧ r.Pages = pages2.length) ∧
      (∀ j, j < pages2.length →
        pageLabel (files.getD d2 defFile).name (j + 1) ∈ (runBatch api api_key fmt files).calls)) := by
  have hne : pages ≠ [] := by
    intro hcon
    rw [hcon] at hk
    simp at hk
  have hmemf : files.getD d defFile ∈ files := by
    rw [List.getD_eq_getElem _ _ hd]
    exact List.getElem_mem hd
  refine ⟨?_, ?_, ?_, ?_, ?_⟩
  · rw [runBatch_eq _ _ _ _ hlen]
  · -- the failing page's text is the k-th page text and sits inside the concatenation
    have hklen : k < (pages.map (get_pixmap 2)).length := by simp [hk]
    have himg : (pages.map (get_pixmap 2)).getD k defImg = get_pixmap 2 (pages.getD k defPage) := by
      rw [List.getD_eq_getElem _ _ hklen, List.getD_eq_getElem _ _ hk, List.getElem_map]
    have htext := pageTexts_getD api api_key fmt (files.getD d defFile).name
      (pages.map (get_pixmap 2)) k hklen
    rw [himg] at htext
    have hval : extract_text_with_claude api (get_pixmap 2 (pages.getD k defPage)) api_key
        (pageLabel (files.getD d defFile).name (k + 1)) fmt =
        "Error processing image: ".toList ++ e := by
      simp only [extract_text_with_claude, herr]
    rw [hval] at htext
    have hklen2 : k < (pageTexts api api_key fmt (files.getD d defFile).name
        (pages.map (get_pixmap 2))).length := by
      simp [pageTexts, List.enum_length, hk]
    have hmem : ("Error processing image: ".toList ++ e) ∈
        pageTexts api api_key fmt (files.getD d defFile).name (pages.map (get_pixmap 2)) := by
      rw [← htext, List.getD_eq_getElem _ _ hklen2]
      exact List.getElem_mem hklen2
    rw [pdf_text_eq]
    exact renderFrom_infix _ 1 _ hmem
  · intro j hj
    exact calls_mem_of_page api api_key fmt files hlen _ hmemf pages hpdf hne j hj
  · exact results_entry_of_file api api_key fmt files hlen _ hmemf pages hpdf hne
  · intro d2 pages2 hd2 hpdf2 hne2
    have hmemf2 : files.getD d2 defFile ∈ files := by
      rw [List.getD_eq_getElem _ _ hd2]
      exact List.getElem_mem hd2
    constructor
    · obtain ⟨r, hr, h1, h2, -⟩ :=
        results_entry_of_file api api_key fmt files hlen _ hmemf2 pages2 hpdf2 hne2
      exact ⟨r, hr, h1, h2⟩
    · intro j hj
      exact calls_mem_of_page api api_key fmt files hlen _ hmemf2 pages2 hpdf2 hne2 j hj

/-- A model oracle that always fails. -/
def exApiFail : Oracle := fun _ _ _ => Except.error "rate limit".toList

/-- A well-formed two-page uploaded file. -/
def exFile2 : UploadedFile := { name := "two.pdf".toList, pdf := Except.ok [exPage, exPage] }

/-- Witness for C5: page 1 of the first document fails, yet page 2 is still
called, the error text is inside the first document's concatenation, and both
documents appear in the results. -/
theorem soft_fail_isolated_spec_c5_witness :
    (runBatch exApiFail "key".toList none [exFile2, exFileB]).rejected = false ∧
    List.IsInfix ("Error processing image: ".toList ++ "rate limit".toList)
      (pdf_text exApiFail "key".toList none "two.pdf".toList
        ([exPage, exPage].map (get_pixmap 2))) ∧
    pageLabel "two.pdf".toList 2 ∈ (runBatch exApiFail "key".toList none [exFile2, exFileB]).calls ∧
    (∃ r ∈ (runBatch exApiFail "key".toList none [exFile2, exFileB]).results,
      r.Filename = "two.pdf".toList ∧ r.Pages = [exPage, exPage].length) ∧
    (∃ r ∈ (runBatch exApiFail "key".toList none [exFile2, exFileB]).results,
      r.Filename = "b.pdf".toList ∧ r.Pages = [exPage].length) := by
  have h := soft_fail_isolated_spec_c5 exApiFail "key".toList none [exFile2, exFileB] 0 0
    [exPage, exPage] "rate limit".toList (by decide) (by decide) rfl (by decide) rfl
  refine ⟨h.1, h.2.1, h.2.2.1 1 (by decide), ?_, ?_⟩
  · obtain ⟨r, hr, h1, h2, -⟩ := h.2.2.2.1
    exact ⟨r, hr, h1, h2⟩
  · exact (h.2.2.2.2 1 [exPage] (by decide) rfl (by decide)).1

/-! ### Claim C10 -/

theorem find?_first {α : Type} (d0 : α) (p : α → Bool) :
    ∀ (l : List α) (i : Nat), i < l.length →
      p (l.getD i d0) = true →
      (∀ i2, i2 < i → p (l.getD i2 d0) = false) →
      l.find? p = some (l.getD i d0) := by
  intro l
  induction l with
  | nil => intro i hi; simp at hi
  | cons a l2 ih =>
    intro i hi hp hmin
    cases i with
    | zero =>
      exact List.find?_cons_of_pos _ hp
    | succ i2 =>
      have ha : p a = false := hmin 0 (Nat.succ_pos _)
      rw [List.find?_cons_of_neg _ (by simp [ha])]
      exact ih i2 (by simpa using hi) hp (fun i3 h3 => hmin (i3 + 1) (by omega))

/-- C10: If two or more uploaded documents share the same filename, the
full-text view shows, at every position bearing that filename, the stored text
of the first matching result row (the lookup is by filename and returns the
first match), so a later same-named document's own text is never shown at its
position in that view. -/
theorem duplicate_filename_view_spec_c10 (results : List ResultEntry) (i j : Nat)
    (hi : i < results.length) (hj : j < results.length) (_hij : i ≤ j)
    (hsame : (results.getD i defEntry).Filename = (results.getD j defEntry).Filename)
    (hfirst : ∀ i2, i2 < i →
      (results.getD i2 defEntry).Filename ≠ (results.getD j defEntry).Filename) :
    (full_texts_view results).getD j [] =
      replaceAll "...".toList [] ((results.getD i defEntry).ExtractedText) := by
  have hjv : j < (full_texts_view results).length := by simp [full_texts_view, hj]
  have hfind : results.find? (fun r => r.Filename == (results.getD j defEntry).Filename) =
      some (results.getD i defEntry) :=
    find?_first defEntry _ results i hi (beq_iff_eq.mpr hsame)
      (fun i2 h2 => beq_eq_false_iff_ne.mpr (hfirst i2 h2))
  rw [List.getD_eq_getElem _ _ hjv]
  simp only [full_texts_view, List.getElem_map]
  rw [← List.getD_eq_getElem results defEntry hj, hfind]
  simp

/-- Witness for C10: two rows named "a.pdf"; position 1 of the view shows the
stripped text of row 0, not its own. -/
theorem duplicate_filename_view_spec_c10_witness :
    (full_texts_view
      [{ Filename := "a.pdf".toList, Pages := 1, ExtractedText := "first text".toList },
       { Filename := "a.pdf".toList, Pages := 1, ExtractedText := "second text".toList }]).getD
      1 [] =
    replaceAll "...".toList [] "first text".toList := by
  have h := duplicate_filename_view_spec_c10
    [{ Filename := "a.pdf".toList, Pages := 1, ExtractedText := "first text".toList },
     { Filename := "a.pdf".toList, Pages := 1, ExtractedText := "second text".toList }]
    0 1 (by decide) (by decide) (by decide) (by decide)
    (fun i2 h2 => absurd h2 (Nat.not_lt_zero _))
  exact h

/-! ### Claim C1 -/

/-- A model oracle returning a 600-character page text. -/
def exApiLong : Oracle := fun _ _ _ => Except.ok (List.replicate 600 'a')

/-- A model oracle returning a short page text that itself contains the
ellipsis sequence. -/
def exApiDots : Oracle := fun _ _ _ => Except.ok "intro...end".toList

set_option maxRecDepth 100000 in
/-- C1 is violated by the code: the full-text view reuses the stored preview
field, so for a document whose concatenated text has 617 characters the view
shows only 500 characters (the 500-character preview with the trailing
ellipsis removed), not the untruncated full text; and even for a short
document whose preview equals the authoritative full text, every occurrence of
"..." inside the text is removed, so the view differs from the full text. -/
theorem fulltext_view_c1_bug :
    ((full_texts_view (runBatch exApiLong "key".toList none [exFileA]).results).getD 0 []).length
      = 500 ∧
    (pdf_text exApiLong "key".toList none "a.pdf".toList ([exPage].map (get_pixmap 2))).length
      = 617 ∧
    (full_texts_view (runBatch exApiLong "key".toList none [exFileA]).results).getD 0 [] ≠
      pdf_text exApiLong "key".toList none "a.pdf".toList ([exPage].map (get_pixmap 2)) ∧
    (pdf_text exApiDots "key".toList none "a.pdf".toList ([exPage].map (get_pixmap 2))).length
      ≤ 500 ∧
    (full_texts_view (runBatch exApiDots "key".toList none [exFileA]).results).getD 0 [] ≠
      pdf_text exApiDots "key".toList none "a.pdf".toList ([exPage].map (get_pixmap 2)) := by
  refine ⟨?_, ?_, ?_, ?_, ?_⟩ <;> decide
